import Mathlib

/-!
Verification of the auto-release action's pure core against its design
specification.

The development shallowly embeds the pure functions of the repository:
the release decision engine (`determineReleaseDecision` in `src/index.ts`),
the changelog section parser (`parseChangelogContent` in
`src/parsers/changelog.parser.ts`) together with its helpers
(`replaceTabs`, `trimEmptyEdges`, `isBlank`, `buildTagName` in the utils
module), the manifest parser (`parsePackageJson` and
`extractVersionFromTag` in `src/parsers/package-json.parser.ts`) and the
changelog fallback (`getChangelogWithFallback` in `src/index.ts`).

JavaScript strings are modelled as Lean `String` (a list of characters);
the handful of standard-library string operations the source uses
(`split('\n')`, `startsWith`, `substring`, `trim`-emptiness, global
single-character `replace`) are embedded as character-list operations
with the same semantics.
-/

namespace AutoRelease

/-! ## String primitives (JavaScript standard-library semantics) -/

/-- JS `s.startsWith(pre)`: `pre` is a prefix of the character sequence. -/
def strStartsWith (s pre : String) : Bool :=
  pre.data.isPrefixOf s.data

/-- JS `s.substring(n)` / `s.slice(n)`: drop the first `n` characters. -/
def strDrop (s : String) (n : Nat) : String :=
  String.mk (s.data.drop n)

/-- Occurrence of `sub` as a contiguous substring of `s` (used for the
changelog heading regex, see `headerMatches`). -/
def strContainsStr (s sub : String) : Bool :=
  decide (sub.data <:+: s.data)

/-- JS `content.split('\n')`, accumulator-based: `acc` holds the
characters of the current line in reverse. -/
def splitLinesAux : List Char → List Char → List String
  | [], acc => [String.mk acc.reverse]
  | c :: cs, acc =>
    if c = '\n' then String.mk acc.reverse :: splitLinesAux cs []
    else splitLinesAux cs (c :: acc)

/-- JS `content.split('\n')`: the lines of the document.  Never empty;
`""` splits to `[""]`, and a trailing newline yields a trailing `""`. -/
def splitLines (content : String) : List String :=
  splitLinesAux content.data []

/-! ## utils.ts -/

/-- `buildTagName(prefix, version)`: plain concatenation, no separator. -/
def buildTagName (tagPrefix version : String) : String :=
  tagPrefix ++ version

/-- `isBlank(value)`: JS `!value || value.trim().length === 0`.  A string
trims to the empty string exactly when every character is whitespace
(this also covers the falsy `""`). -/
def isBlank (s : String) : Bool :=
  s.data.all (fun c => c.isWhitespace)

/-- `replaceTabs(line, tabSize)`: JS `line.replace(/\t/g, ' '.repeat(tabSize))`.
A global single-character replacement expands each tab character into
`tabSize` spaces and leaves every other character unchanged. -/
def replaceTabs (line : String) (tabSize : Nat) : String :=
  String.mk (line.data.flatMap
    (fun c => if c = '\t' then List.replicate tabSize ' ' else [c]))

/-- `trimEmptyEdges(lines)`: shift while the first line is blank, then pop
while the last line is blank. -/
def trimEmptyEdges (lines : List String) : List String :=
  (((lines.dropWhile (fun l => isBlank l)).reverse).dropWhile
    (fun l => isBlank l)).reverse

/-! ## parsers/package-json.parser.ts -/

/-- `extractVersionFromTag(tag, tagPrefix)`: remove the prefix from the
front of the tag when it is there, otherwise return the tag unchanged. -/
def extractVersionFromTag (tag tagPrefix : String) : String :=
  if strStartsWith tag tagPrefix then strDrop tag tagPrefix.data.length
  else tag

/-- A parsed JSON value, the possible results of `JSON.parse`. -/
inductive Json where
  | null
  | bool (b : Bool)
  | num (n : Int)
  | str (s : String)
  | arr (elems : List Json)
  | obj (fields : List (String × Json))

/-- How `parsePackageJson` can throw: `JSON.parse` raising a syntax error
on invalid input, or the property access `packageJson.version` raising a
type error because `JSON.parse` returned `null`. -/
inductive JsError where
  | parseError
  | nullPropertyAccess
deriving DecidableEq

/-- JavaScript truthiness of a parsed JSON value: `null`, `false`, `0`
and `""` are falsy, everything else is truthy. -/
def jsTruthy : Json → Bool
  | Json.null => false
  | Json.bool b => b
  | Json.num n => n != 0
  | Json.str s => s != ""
  | Json.arr _ => true
  | Json.obj _ => true

/-- Property lookup on a parsed JSON object (`JSON.parse` keeps one value
per key, so the field list is keyed uniquely). -/
def lookupField : List (String × Json) → String → Option Json
  | [], _ => none
  | (k, v) :: rest, key => if k = key then some v else lookupField rest key

/-- `parsePackageJson(content)`: `JSON.parse(content)` followed by
`packageJson.version || ''`.  The argument is the outcome of the external
`JSON.parse`: `Except.error` when the content is not syntactically valid
JSON (the exception propagates), `Except.ok j` when it parses to `j`.
Property access on `null` throws; on any other non-object value it yields
`undefined`, which falls through to `''`; a falsy `version` field also
falls through to `''`. -/
def parsePackageJson (parsed : Except Unit Json) : Except JsError Json :=
  match parsed with
  | Except.error _ => Except.error JsError.parseError
  | Except.ok Json.null => Except.error JsError.nullPropertyAccess
  | Except.ok (Json.obj fields) =>
    match lookupField fields "version" with
    | some v => Except.ok (if jsTruthy v then v else Json.str "")
    | none => Except.ok (Json.str "")
  | Except.ok _ => Except.ok (Json.str "")

/-! ## index.ts: the release decision engine and the fallback -/

/-- The `ReleaseDecision` record of `src/index.ts`; the optional
`latestVersion` field is `none` when it is omitted. -/
structure ReleaseDecision where
  versionChanged : Bool
  shouldCreateRelease : Bool
  newTagName : String
  currentVersion : String
  latestVersion : Option String
deriving DecidableEq

/-- `determineReleaseDecision(currentVersion, latestTag, tagPrefix,
tagAlreadyExists)`.  The first guard is JS `if (!latestTag)`, which is
taken both for `null` and for the empty string (both are falsy). -/
def determineReleaseDecision (currentVersion : String)
    (latestTag : Option String) (tagPrefix : String)
    (tagAlreadyExists : Bool) : ReleaseDecision :=
  let newTagName := buildTagName tagPrefix currentVersion
  match latestTag with
  | none =>
    { versionChanged := true, shouldCreateRelease := true,
      newTagName := newTagName, currentVersion := currentVersion,
      latestVersion := none }
  | some t =>
    if t = "" then
      { versionChanged := true, shouldCreateRelease := true,
        newTagName := newTagName, currentVersion := currentVersion,
        latestVersion := none }
    else
      let latestVersion := extractVersionFromTag t tagPrefix
      if currentVersion = latestVersion then
        { versionChanged := false, shouldCreateRelease := false,
          newTagName := newTagName, currentVersion := currentVersion,
          latestVersion := some latestVersion }
      else if tagAlreadyExists then
        { versionChanged := true, shouldCreateRelease := false,
          newTagName := newTagName, currentVersion := currentVersion,
          latestVersion := some latestVersion }
      else
        { versionChanged := true, shouldCreateRelease := true,
          newTagName := newTagName, currentVersion := currentVersion,
          latestVersion := some latestVersion }

/-- `getChangelogWithFallback(changelogContent, version)`: JS
`changelogContent || "Release " + version` — only the empty string is a
falsy string, so only `""` triggers the fallback. -/
def getChangelogWithFallback (changelogContent version : String) : String :=
  if changelogContent = "" then "Release " ++ version else changelogContent

/-! ## parsers/changelog.parser.ts -/

/-- JS `version.replace(/^v/, '')`: strip one leading `v` when present. -/
def stripLeadingV (version : String) : String :=
  if strStartsWith version "v" then strDrop version 1 else version

/-- The heading test of the parser: the source escapes the dots of the
normalized version and tests the regular expression `^## .*\[?V\]?`
against each line.  The two bracket atoms are optional and nothing is
anchored after them, so for version strings without regular-expression
metacharacters (see `regexSafeVersion`) the expression holds of a line
exactly when the line starts with `"## "` and the normalized version
occurs somewhere after that marker; that is how it is embedded. -/
def headerMatches (versionClean line : String) : Bool :=
  strStartsWith line "## " && strContainsStr (strDrop line 3) versionClean

/-- Version strings whose characters carry no regular-expression meaning
beyond the dot the source escapes: for these the constructed heading
pattern denotes plain containment.  The embedding of the heading test is
faithful on this fragment. -/
def regexSafeVersion (v : String) : Bool :=
  v.data.all (fun c => c.isAlphanum || c = '.' || c = '-')

/-- JS `lines.findIndex(p)`: index of the first line satisfying `p`. -/
def findIdxFirst (p : String → Bool) : List String → Option Nat
  | [] => none
  | l :: ls => if p l then some 0 else (findIdxFirst p ls).map (· + 1)

/-- JS `lines.findIndex((line, idx) => idx > start && line.startsWith('## '))`,
with the running index `j` made explicit. -/
def findNextHeaderFrom : List String → Nat → Nat → Option Nat
  | [], _, _ => none
  | line :: rest, j, start =>
    if decide (start < j) && strStartsWith line "## " then some j
    else findNextHeaderFrom rest (j + 1) start

/-- `parseChangelogContent(content, version)` from
`src/parsers/changelog.parser.ts`: split into lines, normalize the
version, find the first heading line matching it, cut the body at the
next `"## "` heading (JS `slice(start+1, next)` is take-then-drop), trim
blank edge lines, expand tabs and join with newlines. -/
def parseChangelogContent (content version : String) : String :=
  match findIdxFirst (fun line => headerMatches (stripLeadingV version) line)
      (splitLines content) with
  | none => ""
  | some startLineIndex =>
    String.intercalate "\n"
      ((trimEmptyEdges
        (match findNextHeaderFrom (splitLines content) 0 startLineIndex with
         | none => (splitLines content).drop (startLineIndex + 1)
         | some nextHeaderIndex =>
           ((splitLines content).take nextHeaderIndex).drop
             (startLineIndex + 1))).map (fun l => replaceTabs l 4))

/-- The section body the specification describes: the lines strictly
between the heading at index `i` and the next line starting with `"## "`,
or all remaining lines when no such later heading exists. -/
def sectionLinesAfter (lines : List String) (i : Nat) : List String :=
  (lines.drop (i + 1)).takeWhile (fun l => !(strStartsWith l "## "))

/-- The rendering the parser applies to the selected section lines:
trim blank edges, expand tabs to 4 spaces, join with newlines. -/
def renderSection (body : List String) : String :=
  String.intercalate "\n" ((trimEmptyEdges body).map (fun l => replaceTabs l 4))

end AutoRelease

namespace AutoRelease

/-! ## Theorems: release decision engine -/

/-- C9: the decision engine treats an empty-string `latestTag` exactly
like an absent one: for every current version, tag prefix and
tag-existence flag, the result is `versionChanged = true`,
`shouldCreateRelease = true`, with `latestVersion` omitted — even when
`tagAlreadyExists` is `true`, so the tag-collision branch is unreachable
for an empty latest tag. -/
theorem decision_empty_tag_as_absent (v p : String) (e : Bool) :
    determineReleaseDecision v (some "") p e =
      { versionChanged := true, shouldCreateRelease := true,
        newTagName := p ++ v, currentVersion := v, latestVersion := none } := by
  simp [determineReleaseDecision, buildTagName]

/-- C1 counterexample: at `currentVersion = "1.0.0"`,
`latestTag = some ""`, `tagPrefix = "v"`, `tagAlreadyExists = true`, the
current version differs from the extracted latest version (`""`), so the
claim's present-tag branch demands `shouldCreateRelease = false` with
`latestVersion` included; the code instead takes the falsy-guard branch
and returns `shouldCreateRelease = true` with `latestVersion` omitted. -/
theorem decision_empty_tag_counterexample :
    "1.0.0" ≠ extractVersionFromTag "" "v" ∧
    (determineReleaseDecision "1.0.0" (some "") "v" true).shouldCreateRelease
      = true ∧
    (determineReleaseDecision "1.0.0" (some "") "v" true).latestVersion
      = none := by
  refine ⟨by decide, ?_, ?_⟩ <;> rfl

/-- C1 (amended to non-empty latest tags): with no prior tag the decision
is `versionChanged = true`, `shouldCreateRelease = true`,
`newTagName = p ++ v`, `currentVersion = v`, `latestVersion` omitted;
with a non-empty prior tag `t`, writing `lv` for `t` with the prefix `p`
stripped from its front when present, the decision has `latestVersion =
some lv`, `newTagName = p ++ v`, `currentVersion = v`, and:
`versionChanged = false`, `shouldCreateRelease = false` when `v = lv`;
`versionChanged = true`, `shouldCreateRelease = false` when `v ≠ lv` and
the tag already exists; `versionChanged = true`,
`shouldCreateRelease = true` when `v ≠ lv` and it does not. -/
theorem decision_branches (v p t : String) (e : Bool) (ht : t ≠ "") :
    determineReleaseDecision v none p e =
      { versionChanged := true, shouldCreateRelease := true,
        newTagName := p ++ v, currentVersion := v, latestVersion := none } ∧
    (determineReleaseDecision v (some t) p e).newTagName = p ++ v ∧
    (determineReleaseDecision v (some t) p e).currentVersion = v ∧
    (determineReleaseDecision v (some t) p e).latestVersion
      = some (extractVersionFromTag t p) ∧
    (v = extractVersionFromTag t p →
      (determineReleaseDecision v (some t) p e).versionChanged = false ∧
      (determineReleaseDecision v (some t) p e).shouldCreateRelease = false) ∧
    (v ≠ extractVersionFromTag t p → e = true →
      (determineReleaseDecision v (some t) p e).versionChanged = true ∧
      (determineReleaseDecision v (some t) p e).shouldCreateRelease = false) ∧
    (v ≠ extractVersionFromTag t p → e = false →
      (determineReleaseDecision v (some t) p e).versionChanged = true ∧
      (determineReleaseDecision v (some t) p e).shouldCreateRelease = true) := by
  refine ⟨rfl, ?_, ?_, ?_, ?_, ?_, ?_⟩ <;>
    simp only [determineReleaseDecision, buildTagName, if_neg ht]
  · by_cases hv : v = extractVersionFromTag t p <;> cases e <;> simp [hv]
  · by_cases hv : v = extractVersionFromTag t p <;> cases e <;> simp [hv]
  · by_cases hv : v = extractVersionFromTag t p <;> cases e <;> simp [hv]
  · intro hv
    simp [hv]
  · intro hv he
    subst he
    simp [hv]
  · intro hv he
    subst he
    simp [hv]

/-- C1 witness: the amended branch table evaluated at
`v = "1.1.0"`, `p = "v"`, `t = "v1.0.0"`, `e = false`. -/
theorem decision_branches_witness :
    (determineReleaseDecision "1.1.0" (some "v1.0.0") "v" false).versionChanged
        = true ∧
    (determineReleaseDecision "1.1.0" (some "v1.0.0") "v" false).shouldCreateRelease
        = true :=
  (decision_branches "1.1.0" "v" "v1.0.0" false (by decide)).2.2.2.2.2.2
    (by decide) rfl

/-- C2: for every input, `shouldCreateRelease` implies `versionChanged`;
and the converse fails: there is an input (a changed version whose tag
already exists) with `versionChanged = true` and
`shouldCreateRelease = false`. -/
theorem release_implies_changed :
    (∀ (v : String) (lt : Option String) (p : String) (e : Bool),
      (determineReleaseDecision v lt p e).shouldCreateRelease = true →
      (determineReleaseDecision v lt p e).versionChanged = true) ∧
    ∃ (v : String) (lt : Option String) (p : String) (e : Bool),
      (determineReleaseDecision v lt p e).versionChanged = true ∧
      (determineReleaseDecision v lt p e).shouldCreateRelease = false := by
  constructor
  · intro v lt p e h
    match lt with
    | none => rfl
    | some t =>
      by_cases h0 : t = ""
      · simp [determineReleaseDecision, h0]
      · by_cases hv : v = extractVersionFromTag t p
        · simp [determineReleaseDecision, h0, hv] at h
        · cases e <;> simp [determineReleaseDecision, h0, hv]
  · exact ⟨"1.1.0", some "v1.0.0", "v", true, by decide, by decide⟩

/-- C2 witness: the implication applied at a concrete input where a
release is created. -/
theorem release_implies_changed_witness :
    (determineReleaseDecision "1.0.0" none "v" false).versionChanged = true :=
  release_implies_changed.1 "1.0.0" none "v" false (by decide)

/-! ## Theorems: manifest parser -/

/-- C7: a valid JSON object with a string `version` field yields exactly
that string; an object whose `version` field is absent or falsy yields
the empty string; syntactically invalid content fails with the parse
error. -/
theorem package_json_version_field (fields : List (String × Json))
    (s : String) (u : Unit) :
    (lookupField fields "version" = some (Json.str s) →
      parsePackageJson (Except.ok (Json.obj fields))
        = Except.ok (Json.str s)) ∧
    (lookupField fields "version" = none →
      parsePackageJson (Except.ok (Json.obj fields))
        = Except.ok (Json.str "")) ∧
    (∀ v, lookupField fields "version" = some v → jsTruthy v = false →
      parsePackageJson (Except.ok (Json.obj fields))
        = Except.ok (Json.str "")) ∧
    parsePackageJson (Except.error u) = Except.error JsError.parseError := by
  refine ⟨?_, ?_, ?_, rfl⟩
  · intro h
    by_cases hs : s = ""
    · subst hs
      simp [parsePackageJson, h, jsTruthy]
    · simp [parsePackageJson, h, jsTruthy, hs]
  · intro h
    simp [parsePackageJson, h]
  · intro v h hv
    simp [parsePackageJson, h, hv]

/-- C7 witness: a manifest object with `version` field `"1.2.3"`. -/
theorem package_json_version_field_witness :
    parsePackageJson (Except.ok (Json.obj
        [("name", Json.str "pkg"), ("version", Json.str "1.2.3")]))
      = Except.ok (Json.str "1.2.3") :=
  (package_json_version_field
    [("name", Json.str "pkg"), ("version", Json.str "1.2.3")] "1.2.3" ()).1
    rfl

/-- C10: the content `null` is syntactically valid JSON, yet the parser
throws on it — the property access `packageJson.version` raises a type
error, which is not the parse error — so its failures are not confined
to syntactically invalid content. -/
theorem package_json_null_throws :
    parsePackageJson (Except.ok Json.null)
        = Except.error JsError.nullPropertyAccess ∧
    JsError.nullPropertyAccess ≠ JsError.parseError :=
  ⟨rfl, by decide⟩

/-! ## Theorems: changelog fallback -/

/-- C8: the fallback replaces exactly the literal empty string by
`"Release " ++ version`; every non-empty string, whitespace-only ones
included, is returned unchanged. -/
theorem changelog_fallback (v s : String) (hs : s ≠ "") :
    getChangelogWithFallback "" v = "Release " ++ v ∧
    getChangelogWithFallback s v = s := by
  refine ⟨rfl, ?_⟩
  simp [getChangelogWithFallback, hs]

/-- C8 witness: a whitespace-only body is not replaced. -/
theorem changelog_fallback_witness :
    getChangelogWithFallback "   " "1.0.0" = "   " :=
  (changelog_fallback "1.0.0" "   " (by decide)).2

/-! ## Helper lemmas: strings -/

theorem strData_append (a b : String) : (a ++ b).data = a.data ++ b.data := by
  cases a
  cases b
  rfl

theorem strMk_data (s : String) : String.mk s.data = s := by
  cases s
  rfl

theorem strStartsWith_iff (s pre : String) :
    strStartsWith s pre = true ↔ pre.data <+: s.data := by
  simp [strStartsWith, List.isPrefixOf_iff_prefix]

theorem strContainsStr_iff (s sub : String) :
    strContainsStr s sub = true ↔ sub.data <:+: s.data := by
  simp [strContainsStr]

theorem headerMatches_data (vc line : String)
    (h1 : "## ".data <+: line.data)
    (h2 : vc.data <:+: line.data.drop 3) :
    headerMatches vc line = true := by
  unfold headerMatches
  rw [Bool.and_eq_true]
  refine ⟨(strStartsWith_iff _ _).mpr h1, ?_⟩
  rw [strContainsStr_iff]
  have hd : (strDrop line 3).data = line.data.drop 3 := rfl
  rw [hd]
  exact h2

theorem headerMatches_imp_header (vc l : String)
    (h : headerMatches vc l = true) : strStartsWith l "## " = true := by
  simp only [headerMatches, Bool.and_eq_true] at h
  exact h.1

theorem headerMatches_false_of_not_header (vc l : String)
    (h : strStartsWith l "## " = false) : headerMatches vc l = false := by
  unfold headerMatches
  simp [h]

theorem stripLeadingV_data_suffix (V : String) :
    (stripLeadingV V).data <:+ V.data := by
  by_cases h : strStartsWith V "v" = true
  · simp only [stripLeadingV, h, if_true, strDrop]
    exact List.drop_suffix 1 V.data
  · simp only [stripLeadingV, h, if_false]
    exact List.suffix_refl _

theorem headerMatches_style_bracket (V b : String) :
    headerMatches (stripLeadingV V) ("## [" ++ V ++ b) = true := by
  have hd : ("## [" ++ V ++ b).data
      = '#' :: '#' :: ' ' :: '[' :: (V.data ++ b.data) := by
    rw [strData_append, strData_append]
    rfl
  apply headerMatches_data
  · rw [hd]
    exact ⟨'[' :: (V.data ++ b.data), rfl⟩
  · rw [hd]
    have hdrop : ('#' :: '#' :: ' ' :: '[' :: (V.data ++ b.data)).drop 3
        = '[' :: (V.data ++ b.data) := rfl
    rw [hdrop]
    obtain ⟨u, hu⟩ := stripLeadingV_data_suffix V
    refine ⟨'[' :: u, b.data, ?_⟩
    rw [← hu]
    simp [List.append_assoc]

theorem headerMatches_style_plain (V b : String) :
    headerMatches (stripLeadingV V) ("## " ++ V ++ b) = true := by
  have hd : ("## " ++ V ++ b).data
      = '#' :: '#' :: ' ' :: (V.data ++ b.data) := by
    rw [strData_append, strData_append]
    rfl
  apply headerMatches_data
  · rw [hd]
    exact ⟨V.data ++ b.data, rfl⟩
  · rw [hd]
    have hdrop : ('#' :: '#' :: ' ' :: (V.data ++ b.data)).drop 3
        = V.data ++ b.data := rfl
    rw [hdrop]
    obtain ⟨u, hu⟩ := stripLeadingV_data_suffix V
    refine ⟨u, b.data, ?_⟩
    rw [← hu]

theorem headerMatches_style_bare (V : String) :
    headerMatches (stripLeadingV V) ("## " ++ V) = true := by
  have hd : ("## " ++ V).data = '#' :: '#' :: ' ' :: V.data := by
    rw [strData_append]
    rfl
  apply headerMatches_data
  · rw [hd]
    exact ⟨V.data, rfl⟩
  · rw [hd]
    have hdrop : ('#' :: '#' :: ' ' :: V.data).drop 3 = V.data := rfl
    rw [hdrop]
    exact (stripLeadingV_data_suffix V).isInfix

/-! ## Helper lemmas: the two findIndex scans of the parser -/

theorem findNextHeaderFrom_of_lt :
    ∀ (lines : List String) (j start : Nat), start < j →
      findNextHeaderFrom lines j start =
        (findIdxFirst (fun l => strStartsWith l "## ") lines).map (· + j) := by
  intro lines
  induction lines with
  | nil => intro j start _; rfl
  | cons l ls ih =>
    intro j start h
    by_cases hl : strStartsWith l "## " = true
    · simp [findNextHeaderFrom, findIdxFirst, h, hl]
    · rw [show findNextHeaderFrom (l :: ls) j start
          = findNextHeaderFrom ls (j + 1) start by
        simp [findNextHeaderFrom, hl]]
      rw [ih (j + 1) start (Nat.lt_succ_of_lt h)]
      cases hfi : findIdxFirst (fun a => strStartsWith a "## ") ls with
      | none => simp [findIdxFirst, hl, hfi]
      | some k =>
        simp [findIdxFirst, hl, hfi]
        omega

theorem findNextHeaderFrom_skip :
    ∀ (lines : List String) (j start : Nat), j ≤ start →
      findNextHeaderFrom lines j start =
        findNextHeaderFrom (lines.drop (start + 1 - j)) (start + 1) start := by
  intro lines
  induction lines with
  | nil => intro j start _; simp [findNextHeaderFrom]
  | cons l ls ih =>
    intro j start h
    have hnot : ¬ start < j := Nat.not_lt.mpr h
    have hstep : findNextHeaderFrom (l :: ls) j start
        = findNextHeaderFrom ls (j + 1) start := by
      simp [findNextHeaderFrom, hnot]
    rcases Nat.lt_or_ge start (j + 1) with hj | hj
    · have hjs : j = start := by omega
      subst hjs
      have h1 : j + 1 - j = 1 := by omega
      rw [hstep, h1]
      rfl
    · have h2 : start + 1 - j = (start + 1 - (j + 1)) + 1 := by omega
      rw [hstep, ih (j + 1) start hj, h2, List.drop_succ_cons]

theorem findNextHeaderFrom_zero (lines : List String) (start : Nat) :
    findNextHeaderFrom lines 0 start =
      (findIdxFirst (fun l => strStartsWith l "## ")
        (lines.drop (start + 1))).map (· + (start + 1)) := by
  rw [findNextHeaderFrom_skip lines 0 start (Nat.zero_le start), Nat.sub_zero]
  exact findNextHeaderFrom_of_lt _ (start + 1) start (Nat.lt_succ_self start)

theorem findIdxFirst_eq_none_of_all {p : String → Bool} :
    ∀ l : List String, (∀ a ∈ l, p a = false) → findIdxFirst p l = none := by
  intro l
  induction l with
  | nil => intro _; rfl
  | cons a l ih =>
    intro h
    have ha := h a (List.mem_cons_self a l)
    simp [findIdxFirst, ha,
      ih (fun b hb => h b (List.mem_cons_of_mem a hb))]

theorem findIdxFirst_eq_none_imp_all {p : String → Bool} :
    ∀ l : List String, findIdxFirst p l = none → ∀ a ∈ l, p a = false := by
  intro l
  induction l with
  | nil => intro _ a ha; simp at ha
  | cons x l ih =>
    intro h a ha
    cases hx : p x with
    | true => simp [findIdxFirst, hx] at h
    | false =>
      simp [findIdxFirst, hx, Option.map_eq_none'] at h
      rcases List.mem_cons.mp ha with rfl | ha2
      · exact hx
      · exact ih h a ha2

theorem findIdxFirst_eq_some_of_first {p : String → Bool} :
    ∀ (l : List String) (i : Nat) (a : String),
      l[i]? = some a → p a = true →
      (∀ j b, j < i → l[j]? = some b → p b = false) →
      findIdxFirst p l = some i := by
  intro l
  induction l with
  | nil => intro i a h _ _; simp at h
  | cons x l ih =>
    intro i a h hp hfirst
    cases i with
    | zero =>
      simp only [List.getElem?_cons_zero] at h
      cases h
      simp [findIdxFirst, hp]
    | succ i =>
      have hx : p x = false := hfirst 0 x (Nat.succ_pos i) (by simp)
      simp only [List.getElem?_cons_succ] at h
      have hrec := ih i a h hp
        (fun j b hj hjb =>
          hfirst (j + 1) b (Nat.succ_lt_succ hj) (by simpa using hjb))
      simp [findIdxFirst, hx, hrec]

theorem findIdxFirst_append_cons {p : String → Bool} (y : String)
    (ys : List String) :
    ∀ xs : List String, (∀ l ∈ xs, p l = false) → p y = true →
      findIdxFirst p (xs ++ y :: ys) = some xs.length := by
  intro xs
  induction xs with
  | nil => intro _ hy; simp [findIdxFirst, hy]
  | cons x xs ih =>
    intro hxs hy
    have hx := hxs x (List.mem_cons_self x xs)
    simp [findIdxFirst, hx,
      ih (fun l hl => hxs l (List.mem_cons_of_mem x hl)) hy]

/-! ## Helper lemmas: section slicing -/

theorem takeWhile_not_header_eq_self (l : List String)
    (h : ∀ a ∈ l, strStartsWith a "## " = false) :
    l.takeWhile (fun a => !(strStartsWith a "## ")) = l := by
  induction l with
  | nil => rfl
  | cons a l ih =>
    have ha := h a (List.mem_cons_self a l)
    simp [List.takeWhile_cons, ha,
      ih (fun b hb => h b (List.mem_cons_of_mem a hb))]

theorem takeWhile_not_header_eq_take :
    ∀ (l : List String) (k : Nat),
      findIdxFirst (fun a => strStartsWith a "## ") l = some k →
      l.takeWhile (fun a => !(strStartsWith a "## ")) = l.take k := by
  intro l
  induction l with
  | nil => intro k h; simp [findIdxFirst] at h
  | cons a l ih =>
    intro k h
    cases ha : strStartsWith a "## " with
    | true =>
      simp [findIdxFirst, ha] at h
      subst h
      simp [List.takeWhile_cons, ha]
    | false =>
      simp [findIdxFirst, ha, Option.map_eq_some'] at h
      obtain ⟨k1, hk1, hk⟩ := h
      subst hk
      simp [List.takeWhile_cons, ha, ih k1 hk1]

theorem takeWhile_not_header_append (xs : List String) (y : String)
    (ys : List String)
    (hxs : ∀ l ∈ xs, strStartsWith l "## " = false)
    (hy : strStartsWith y "## " = true) :
    (xs ++ y :: ys).takeWhile (fun l => !(strStartsWith l "## ")) = xs := by
  induction xs with
  | nil => simp [List.takeWhile_cons, hy]
  | cons x xs ih =>
    have hx := hxs x (List.mem_cons_self x xs)
    simp [List.takeWhile_cons, hx,
      ih (fun l hl => hxs l (List.mem_cons_of_mem x hl))]

theorem drop_append_cons_length (xs : List String) (y : String)
    (ys : List String) :
    (xs ++ y :: ys).drop (xs.length + 1) = ys := by
  rw [show xs ++ y :: ys = (xs ++ [y]) ++ ys by simp]
  apply List.drop_left'
  simp

/-! ## Helper lemmas: the parser in terms of the selected section -/

theorem parseChangelogContent_eq_empty (content version : String)
    (h : findIdxFirst (fun line => headerMatches (stripLeadingV version) line)
      (splitLines content) = none) :
    parseChangelogContent content version = "" := by
  unfold parseChangelogContent
  rw [h]

theorem parseChangelogContent_eq_render (content version : String) (i : Nat)
    (h : findIdxFirst (fun line => headerMatches (stripLeadingV version) line)
      (splitLines content) = some i) :
    parseChangelogContent content version
      = renderSection (sectionLinesAfter (splitLines content) i) := by
  unfold parseChangelogContent
  simp only [h]
  rw [findNextHeaderFrom_zero (splitLines content) i]
  unfold renderSection sectionLinesAfter
  cases hfi : findIdxFirst (fun l => strStartsWith l "## ")
      ((splitLines content).drop (i + 1)) with
  | none =>
    simp only [Option.map_none']
    rw [takeWhile_not_header_eq_self _ (findIdxFirst_eq_none_imp_all _ hfi)]
  | some k =>
    simp only [Option.map_some']
    rw [takeWhile_not_header_eq_take _ k hfi, List.drop_take,
      Nat.add_sub_cancel]

/-! ## Helper lemmas: rendering is the identity on well-formed bodies -/

theorem head_dropWhile_isBlank :
    ∀ (l : List String) (x : String),
      (l.dropWhile (fun a => isBlank a)).head? = some x → isBlank x = false := by
  intro l
  induction l with
  | nil => intro x h; simp at h
  | cons a l ih =>
    intro x h
    cases hb : isBlank a with
    | true =>
      rw [List.dropWhile_cons] at h
      simp only [hb, if_true] at h
      exact ih x h
    | false =>
      rw [List.dropWhile_cons] at h
      simp [hb] at h
      rw [← h]
      exact hb

theorem trimEmptyEdges_eq_self (l : List String)
    (hhead : ∀ a, l.head? = some a → isBlank a = false)
    (hlast : ∀ a, l.getLast? = some a → isBlank a = false) :
    trimEmptyEdges l = l := by
  unfold trimEmptyEdges
  have h1 : l.dropWhile (fun a => isBlank a) = l := by
    cases l with
    | nil => rfl
    | cons a l =>
      have := hhead a rfl
      simp [List.dropWhile_cons, this]
  rw [h1]
  have h2 : l.reverse.dropWhile (fun a => isBlank a) = l.reverse := by
    cases hr : l.reverse with
    | nil => rfl
    | cons a lr =>
      have ha : l.getLast? = some a := by
        rw [← List.head?_reverse, hr]
        rfl
      have := hlast a ha
      simp [List.dropWhile_cons, this]
  rw [h2, List.reverse_reverse]

theorem flatMap_expand_eq_self (n : Nat) :
    ∀ d : List Char, '\t' ∉ d →
      d.flatMap (fun c => if c = '\t' then List.replicate n ' ' else [c])
        = d := by
  intro d
  induction d with
  | nil => intro _; rfl
  | cons c cs ih =>
    intro h
    have hc : ¬ c = '\t' := fun hcc => h (by rw [hcc]; exact List.mem_cons_self _ _)
    have hcs : '\t' ∉ cs := fun hm => h (List.mem_cons_of_mem c hm)
    simp [List.flatMap_cons, hc, ih hcs]

theorem replaceTabs_eq_self (l : String) (h : '\t' ∉ l.data) :
    replaceTabs l 4 = l := by
  unfold replaceTabs
  rw [flatMap_expand_eq_self 4 l.data h, strMk_data]

theorem map_replaceTabs_self (body : List String)
    (h : ∀ l ∈ body, '\t' ∉ l.data) :
    body.map (fun l => replaceTabs l 4) = body := by
  rw [show body.map (fun l => replaceTabs l 4) = body.map id from
    List.map_congr_left (fun a ha => replaceTabs_eq_self a (h a ha))]
  exact List.map_id body

/-! ## Theorems: changelog parser -/

/-- C3: the parser selects as section start the FIRST line (from the top)
that begins with `"## "` and contains the normalized version — optionally
bracket-wrapped, which the containment subsumes — anywhere after the
marker, and returns the empty string when no such line exists; the
section body is the run of lines strictly between that heading and the
next line beginning with `"## "`, or all remaining lines when there is
none, to which the parser then applies its rendering.  Stated for
versions without regular-expression metacharacters, where the source's
constructed pattern denotes exactly this test. -/
theorem changelog_first_heading_selection (content version : String)
    (hsafe : regexSafeVersion (stripLeadingV version) = true) :
    ((∀ l ∈ splitLines content,
        headerMatches (stripLeadingV version) l = false) →
      parseChangelogContent content version = "") ∧
    (∀ i l, (splitLines content)[i]? = some l →
      headerMatches (stripLeadingV version) l = true →
      (∀ j m, j < i → (splitLines content)[j]? = some m →
        headerMatches (stripLeadingV version) m = false) →
      parseChangelogContent content version
        = renderSection (sectionLinesAfter (splitLines content) i)) := by
  constructor
  · intro hall
    exact parseChangelogContent_eq_empty content version
      (findIdxFirst_eq_none_of_all _ hall)
  · intro i l hget hp hfirst
    exact parseChangelogContent_eq_render content version i
      (findIdxFirst_eq_some_of_first _ i l hget hp hfirst)

/-- C3 witness: a single-heading document, the heading at index 0. -/
theorem changelog_first_heading_selection_witness :
    parseChangelogContent "## 1.0.0\nBody" "1.0.0"
      = renderSection ["Body"] := by
  have h := (changelog_first_heading_selection "## 1.0.0\nBody" "1.0.0"
      (by decide)).2 0 "## 1.0.0" (by decide) (by decide)
      (fun j m hj _ => absurd hj (Nat.not_lt_zero j))
  rw [h]
  rfl

/-- C4 counterexample: the document `"## 1.0.1\nalpha\n## 1.0\nbeta"`
holds a section for `1.0.1` (body `alpha`) followed by one for `1.0`
(body `beta`); requesting `1.0` matches the FIRST heading, because
`"1.0"` occurs inside `"## 1.0.1"`, and so returns `alpha` — a line of
the other version's section — rather than `beta`. -/
theorem changelog_cross_section_counterexample :
    parseChangelogContent "## 1.0.1\nalpha\n## 1.0\nbeta" "1.0.1"
      = "alpha" ∧
    parseChangelogContent "## 1.0.1\nalpha\n## 1.0\nbeta" "1.0"
      = "alpha" ∧
    ("alpha" : String) ≠ "beta" := by
  refine ⟨rfl, rfl, by decide⟩

/-- C4 (amended): for a document whose lines are a heading for `A`, then
`A`'s body, then a heading for `B`, then `B`'s body — provided the
normalized version of `B` does not also match `A`'s heading line —
requesting `A` returns exactly the rendering of `A`'s section body and
requesting `B` exactly that of `B`'s, so neither request returns any
line of the other version's section. -/
theorem changelog_section_isolation
    (content A B headA headB : String) (bodyA bodyB : List String)
    (hsafeA : regexSafeVersion (stripLeadingV A) = true)
    (hsafeB : regexSafeVersion (stripLeadingV B) = true)
    (hsplit : splitLines content = headA :: (bodyA ++ headB :: bodyB))
    (hmA : headerMatches (stripLeadingV A) headA = true)
    (hmB : headerMatches (stripLeadingV B) headB = true)
    (hbodyA : ∀ l ∈ bodyA, strStartsWith l "## " = false)
    (hbodyB : ∀ l ∈ bodyB, strStartsWith l "## " = false)
    (hcross : headerMatches (stripLeadingV B) headA = false) :
    parseChangelogContent content A = renderSection bodyA ∧
    parseChangelogContent content B = renderSection bodyB := by
  constructor
  · have hfind : findIdxFirst
        (fun line => headerMatches (stripLeadingV A) line)
        (splitLines content) = some 0 := by
      rw [hsplit]
      simp [findIdxFirst, hmA]
    rw [parseChangelogContent_eq_render content A 0 hfind]
    suffices hsec : sectionLinesAfter (splitLines content) 0 = bodyA by
      rw [hsec]
    unfold sectionLinesAfter
    rw [hsplit]
    simp only [List.drop_succ_cons, List.drop_zero]
    exact takeWhile_not_header_append bodyA headB bodyB hbodyA
      (headerMatches_imp_header _ _ hmB)
  · have hxs : ∀ l ∈ bodyA,
        (fun line => headerMatches (stripLeadingV B) line) l = false :=
      fun l hl => headerMatches_false_of_not_header _ l (hbodyA l hl)
    have hfind : findIdxFirst
        (fun line => headerMatches (stripLeadingV B) line)
        (splitLines content) = some (bodyA.length + 1) := by
      rw [hsplit]
      simp only [findIdxFirst, hcross]
      rw [findIdxFirst_append_cons headB bodyB bodyA hxs hmB]
      rfl
    rw [parseChangelogContent_eq_render content B (bodyA.length + 1) hfind]
    suffices hsec : sectionLinesAfter (splitLines content)
        (bodyA.length + 1) = bodyB by
      rw [hsec]
    unfold sectionLinesAfter
    rw [hsplit, List.drop_succ_cons, drop_append_cons_length bodyA headB bodyB]
    exact takeWhile_not_header_eq_self bodyB hbodyB

/-- C4 witness: disjoint versions `1.0.0` and `2.0.0`, each request
returns exactly its own section. -/
theorem changelog_section_isolation_witness :
    parseChangelogContent "## 1.0.0\nfirst body\n## 2.0.0\nsecond body"
        "1.0.0" = renderSection ["first body"] ∧
    parseChangelogContent "## 1.0.0\nfirst body\n## 2.0.0\nsecond body"
        "2.0.0" = renderSection ["second body"] :=
  changelog_section_isolation
    "## 1.0.0\nfirst body\n## 2.0.0\nsecond body" "1.0.0" "2.0.0"
    "## 1.0.0" "## 2.0.0" ["first body"] ["second body"]
    (by decide) (by decide) (by decide) (by decide) (by decide)
    (by decide) (by decide) (by decide)

/-- C5: for every version without regular-expression metacharacters and
every single-line date, each of the four heading styles `## [V] - DATE`,
`## V - DATE`, `## [V]`, `## V` is located: a document made of such a
heading followed by a body (whose lines are not themselves headings, are
tab-free, and whose edge lines are not blank, so that rendering preserves
it) yields exactly that body. -/
theorem changelog_heading_styles (V DATE content style : String)
    (body : List String)
    (hstyle : style = "## [" ++ V ++ "] - " ++ DATE ∨
              style = "## " ++ V ++ " - " ++ DATE ∨
              style = "## [" ++ V ++ "]" ∨
              style = "## " ++ V)
    (hsafe : regexSafeVersion V = true)
    (hsplit : splitLines content = style :: body)
    (hbody : ∀ l ∈ body, strStartsWith l "## " = false)
    (hhead : ∀ l, body.head? = some l → isBlank l = false)
    (hlast : ∀ l, body.getLast? = some l → isBlank l = false)
    (htabs : ∀ l ∈ body, '\t' ∉ l.data) :
    parseChangelogContent content V = String.intercalate "\n" body := by
  have hmatch : headerMatches (stripLeadingV V) style = true := by
    rcases hstyle with h | h | h | h <;> subst h
    · rw [String.append_assoc ("## [" ++ V) "] - " DATE]
      exact headerMatches_style_bracket V ("] - " ++ DATE)
    · rw [String.append_assoc ("## " ++ V) " - " DATE]
      exact headerMatches_style_plain V (" - " ++ DATE)
    · exact headerMatches_style_bracket V "]"
    · exact headerMatches_style_bare V
  have hfind : findIdxFirst
      (fun line => headerMatches (stripLeadingV V) line)
      (splitLines content) = some 0 := by
    rw [hsplit]
    simp [findIdxFirst, hmatch]
  rw [parseChangelogContent_eq_render content V 0 hfind]
  unfold renderSection sectionLinesAfter
  rw [hsplit]
  simp only [List.drop_succ_cons, List.drop_zero]
  rw [takeWhile_not_header_eq_self body hbody,
    trimEmptyEdges_eq_self body hhead hlast,
    map_replaceTabs_self body htabs]

/-- C5 witness: the dated bracket style at a concrete document. -/
theorem changelog_heading_styles_witness :
    parseChangelogContent "## [1.0.0] - 2025-01-01\nAdded things" "1.0.0"
      = String.intercalate "\n" ["Added things"] :=
  changelog_heading_styles "1.0.0" "2025-01-01"
    "## [1.0.0] - 2025-01-01\nAdded things" "## [1.0.0] - 2025-01-01"
    ["Added things"]
    (Or.inl (by decide))
    (by decide) (by decide) (by decide)
    (by intro l hl; simp at hl; subst hl; decide)
    (by intro l hl; simp at hl; subst hl; decide)
    (by decide)

/-! ## Helper lemmas: blank-edge trimming and tab expansion -/

theorem strMkData (l : List Char) : (String.mk l).data = l := rfl

theorem trimEmptyEdges_decomp (body : List String) :
    ∃ pre suf, body = pre ++ trimEmptyEdges body ++ suf ∧
      (∀ l ∈ pre, isBlank l = true) ∧ (∀ l ∈ suf, isBlank l = true) := by
  unfold trimEmptyEdges
  refine ⟨body.takeWhile (fun a => isBlank a),
    ((body.dropWhile (fun a => isBlank a)).reverse.takeWhile
      (fun a => isBlank a)).reverse, ?_, ?_, ?_⟩
  · conv_lhs => rw [← List.takeWhile_append_dropWhile (fun a => isBlank a) body]
    rw [List.append_assoc]
    congr 1
    conv_lhs => rw [← List.reverse_reverse
      (body.dropWhile (fun a => isBlank a))]
    conv_lhs => rw [← List.takeWhile_append_dropWhile (fun a => isBlank a)
      (body.dropWhile (fun a => isBlank a)).reverse]
    rw [List.reverse_append]
  · intro l hl
    exact List.mem_takeWhile_imp hl
  · intro l hl
    rw [List.mem_reverse] at hl
    exact List.mem_takeWhile_imp hl

theorem trimEmptyEdges_head (body : List String) :
    ∀ x, (trimEmptyEdges body).head? = some x → isBlank x = false := by
  intro x hx
  unfold trimEmptyEdges at hx
  have hsuf : (body.dropWhile (fun a => isBlank a)).reverse.dropWhile
        (fun a => isBlank a)
      <:+ (body.dropWhile (fun a => isBlank a)).reverse :=
    List.dropWhile_suffix _
  have hpre : ((body.dropWhile (fun a => isBlank a)).reverse.dropWhile
        (fun a => isBlank a)).reverse
      <+: body.dropWhile (fun a => isBlank a) := by
    have h := List.reverse_prefix.mpr hsuf
    rwa [List.reverse_reverse] at h
  obtain ⟨r, hr⟩ := hpre
  cases hrv : ((body.dropWhile (fun a => isBlank a)).reverse.dropWhile
      (fun a => isBlank a)).reverse with
  | nil => rw [hrv] at hx; simp at hx
  | cons a tl =>
    rw [hrv] at hx
    simp at hx
    rw [hrv] at hr
    have hh : (body.dropWhile (fun a => isBlank a)).head? = some a := by
      rw [← hr]
      rfl
    have hba := head_dropWhile_isBlank body a hh
    rw [← hx]
    exact hba

theorem trimEmptyEdges_last (body : List String) :
    ∀ x, (trimEmptyEdges body).getLast? = some x → isBlank x = false := by
  intro x hx
  unfold trimEmptyEdges at hx
  rw [List.getLast?_reverse] at hx
  exact head_dropWhile_isBlank
    (body.dropWhile (fun a => isBlank a)).reverse x hx

theorem flatMap_expand_length :
    ∀ d : List Char,
      (d.flatMap (fun c => if c = '\t' then List.replicate 4 ' '
        else [c])).length = d.length + 3 * d.count '\t' := by
  intro d
  induction d with
  | nil => rfl
  | cons c cs ih =>
    rw [List.flatMap_cons, List.length_append, ih, List.count_cons]
    by_cases hc : c = '\t' <;> simp [hc] <;> omega

theorem replaceTabs_no_tab (line : String) :
    '\t' ∉ (replaceTabs line 4).data := by
  unfold replaceTabs
  rw [strMkData]
  intro h
  obtain ⟨c, hc, hmem⟩ := List.mem_flatMap.mp h
  by_cases hct : c = '\t'
  · rw [hct] at hmem
    simp at hmem
  · simp [hct] at hmem
    exact hct hmem.symm

theorem replaceTabs_length (line : String) :
    (replaceTabs line 4).data.length
      = line.data.length + 3 * line.data.count '\t' := by
  unfold replaceTabs
  rw [strMkData]
  exact flatMap_expand_length line.data

/-- C6: the rendering the parser applies to an extracted section body
removes exactly a run of blank lines at each edge (the kept middle is a
contiguous, unchanged slice, so interior blank lines survive verbatim,
and the kept edges are maximal: a non-empty trimmed body neither starts
nor ends blank); and on each remaining line, tab replacement leaves no
tab, grows the line by exactly 3 characters per tab (each tab becomes
exactly 4 spaces), and is the identity on tab-free lines; the parser
then joins the lines with newlines (see `renderSection` and
`parseChangelogContent`). -/
theorem changelog_trim_and_tabs (body : List String) (line : String) :
    (∃ pre suf, body = pre ++ trimEmptyEdges body ++ suf ∧
      (∀ l ∈ pre, isBlank l = true) ∧ (∀ l ∈ suf, isBlank l = true)) ∧
    (∀ x, (trimEmptyEdges body).head? = some x → isBlank x = false) ∧
    (∀ x, (trimEmptyEdges body).getLast? = some x → isBlank x = false) ∧
    '\t' ∉ (replaceTabs line 4).data ∧
    (replaceTabs line 4).data.length
      = line.data.length + 3 * line.data.count '\t' ∧
    ('\t' ∉ line.data → replaceTabs line 4 = line) :=
  ⟨trimEmptyEdges_decomp body, trimEmptyEdges_head body,
    trimEmptyEdges_last body, replaceTabs_no_tab line,
    replaceTabs_length line, replaceTabs_eq_self line⟩

/-- C6 witness: the tab-free line `"- entry"` is left unchanged. -/
theorem changelog_trim_and_tabs_witness :
    replaceTabs "- entry" 4 = "- entry" :=
  (changelog_trim_and_tabs [""] "- entry").2.2.2.2.2 (by decide)

end AutoRelease
